import Mathlib

/- Shallow embedding of the ROAM tessellation engine from
   source/Map/SMF/ROAM/Patch.cpp (binary triangle trees, the node pool,
   variance precomputation, tessellation, index and border extraction).
   Floating point values are modelled as rationals; machine pointers are
   modelled as indices into an arena, with absent references as none. -/

/-- Modelled from the spec: the TriTreeNode record declared in the missing
header Patch.h.  A triangle node holds two child references and three
neighbor references (base, left, right), all non-owning; an absent
reference (null pointer) is none. -/
structure TriTreeNode where
  LeftChild : Option Nat
  RightChild : Option Nat
  BaseNeighbor : Option Nat
  LeftNeighbor : Option Nat
  RightNeighbor : Option Nat
deriving DecidableEq

/-- Modelled from the spec: a value-initialized (memset-zero) TriTreeNode,
with every reference absent. -/
def zeroTriTreeNode : TriTreeNode :=
  ⟨none, none, none, none, none⟩

/-- The int2 coordinate pair used throughout Patch.cpp. -/
structure int2 where
  x : Int
  y : Int
deriving DecidableEq

/-- The float3 triple used throughout Patch.cpp, modelled over the rationals. -/
structure float3 where
  x : ℚ
  y : ℚ
  z : ℚ
deriving DecidableEq

/-- CTriNodePool (Patch.cpp lines 75-108): a fixed vector of TriTreeNode
plus a bump cursor nextTriNodeIdx. -/
structure CTriNodePool where
  pool : List TriTreeNode
  nextTriNodeIdx : Nat
deriving DecidableEq

/-- Modelled from the spec: OutOfNodes() from the missing header Patch.h;
the cursor never exceeds capacity, so the pool is exhausted exactly when
the cursor has reached the pool size. -/
def CTriNodePool.OutOfNodes (p : CTriNodePool) : Prop :=
  p.pool.length ≤ p.nextTriNodeIdx

instance (p : CTriNodePool) : Decidable p.OutOfNodes := by
  unfold CTriNodePool.OutOfNodes
  infer_instance

/-- The memset in CTriNodePool::Reset (Patch.cpp line 91): zero the first
n entries of the pool vector. -/
def zeroFirst : Nat → List TriTreeNode → List TriTreeNode
  | _, [] => []
  | 0, l => l
  | n + 1, _ :: t => zeroTriTreeNode :: zeroFirst n t

/-- CTriNodePool::Reset (Patch.cpp lines 87-94): zero-clear the used region
and rewind the cursor. -/
def CTriNodePool.Reset (p : CTriNodePool) : CTriNodePool :=
  ⟨zeroFirst p.nextTriNodeIdx p.pool, 0⟩

/-- CTriNodePool::Allocate (Patch.cpp lines 96-108): on exhaustion return
false with both outputs null and the pool untouched, otherwise hand out the
two nodes at the cursor and advance it by two. -/
def CTriNodePool.Allocate (p : CTriNodePool) :
    CTriNodePool × Option Nat × Option Nat × Bool :=
  if p.OutOfNodes then
    (p, none, none, false)
  else
    ({ p with nextTriNodeIdx := p.nextTriNodeIdx + 2 },
     some p.nextTriNodeIdx, some (p.nextTriNodeIdx + 1), true)

/-- The CTriNodePool constructor (Patch.cpp lines 75-84): a pool of
value-initialized nodes with the cursor at zero. -/
def mkCTriNodePool (poolSize : Nat) : CTriNodePool :=
  ⟨List.replicate poolSize zeroTriTreeNode, 0⟩

/-- The global pool state of Patch.cpp lines 24-28: the per-worker pools of
one render pass together with CUR_POOL_SIZE and MAX_POOL_SIZE. -/
structure PoolsState where
  pools : List CTriNodePool
  curPoolSize : Nat
  maxPoolSize : Nat

/-- CTriNodePool::InitPools (Patch.cpp lines 31-49), success path: rebuild
one pool per worker, splitting newPoolSize across workers with a lower
bound of a third of the request, each share rounded up to even; the
bad_alloc retry path concerns host memory and is outside the model. -/
def InitPools (numThreads : Nat) (st : PoolsState) (newPoolSize : Nat) : PoolsState :=
  { pools := List.replicate numThreads
      (mkCTriNodePool (max (newPoolSize / numThreads) (newPoolSize / 3) +
                       max (newPoolSize / numThreads) (newPoolSize / 3) % 2)),
    curPoolSize := newPoolSize,
    maxPoolSize := st.maxPoolSize }

/-- The loop of CTriNodePool::ResetAll (Patch.cpp lines 55-58): accumulate
the exhaustion flag over the pools and reset each of them. -/
def resetAllLoop : List CTriNodePool → Bool → List CTriNodePool × Bool
  | [], oon => ([], oon)
  | p :: ps, oon =>
    let r := resetAllLoop ps (oon || decide p.OutOfNodes)
    (p.Reset :: r.1, r.2)

/-- CTriNodePool::ResetAll (Patch.cpp lines 51-66): reset every pool; if
any was exhausted and the current global size is below the cap, rebuild all
pools at min(2 * current, cap). -/
def ResetAll (numThreads : Nat) (st : PoolsState) : PoolsState :=
  match resetAllLoop st.pools false with
  | (ps, oon) =>
    if oon = false then { st with pools := ps }
    else if st.maxPoolSize ≤ st.curPoolSize then { st with pools := ps }
    else InitPools numThreads { st with pools := ps }
           (min (st.curPoolSize * 2) st.maxPoolSize)

/-- The mesh arena a Split call mutates: every triangle node reachable
during one tessellation (pool nodes at indices below poolSize, root nodes
at arbitrary other indices) together with the pool cursor of the worker. -/
structure MeshState where
  nodes : Nat → TriTreeNode
  poolSize : Nat
  nextTriNodeIdx : Nat

/-- Write one node of the arena. -/
def setNode (s : MeshState) (i : Nat) (n : TriTreeNode) : MeshState :=
  { s with nodes := fun j => if j = i then n else s.nodes j }

/-- Modelled from the spec: pool exhaustion as seen from inside Split. -/
def MeshState.OutOfNodes (s : MeshState) : Prop :=
  s.poolSize ≤ s.nextTriNodeIdx

instance (s : MeshState) : Decidable s.OutOfNodes := by
  unfold MeshState.OutOfNodes
  infer_instance

/-- Modelled from the spec: IsLeaf() from the missing header Patch.h; a
node is a leaf iff both child references are absent. -/
def IsLeaf (s : MeshState) (i : Nat) : Prop :=
  (s.nodes i).LeftChild = none ∧ (s.nodes i).RightChild = none

instance (s : MeshState) (i : Nat) : Decidable (IsLeaf s i) := by
  unfold IsLeaf
  infer_instance

/-- Modelled from the spec: IsBranch() from the missing header Patch.h, the
negation of IsLeaf. -/
def IsBranch (s : MeshState) (i : Nat) : Prop :=
  ¬ IsLeaf s i

instance (s : MeshState) (i : Nat) : Decidable (IsBranch s i) := by
  unfold IsBranch
  infer_instance

/-- The call curTriPool->Allocate(tri->LeftChild, tri->RightChild) at
Patch.cpp line 223: on failure both child references of tri become null and
the cursor is untouched; on success they become the two fresh pool indices. -/
def PoolAllocate (s : MeshState) (ti : Nat) : MeshState × Bool :=
  if s.OutOfNodes then
    (setNode s ti { s.nodes ti with LeftChild := none, RightChild := none }, false)
  else
    (setNode { s with nextTriNodeIdx := s.nextTriNodeIdx + 2 } ti
       { s.nodes ti with LeftChild := some s.nextTriNodeIdx,
                         RightChild := some (s.nextTriNodeIdx + 1) },
     true)

/-- Patch.cpp lines 229-257: the new children inherit the parent neighbor
pointers and become mutual left/right neighbors, then the left and right
neighbors of the parent are repointed to the matching child by a three-way
case match; an unmatched case is silently ignored. -/
def splitLinkChildren (s2 : MeshState) (ti lc rc : Nat) : MeshState :=
  let tn := s2.nodes ti
  let s3 := setNode s2 lc
    { s2.nodes lc with BaseNeighbor := tn.LeftNeighbor, LeftNeighbor := some rc }
  let s4 := setNode s3 rc
    { s3.nodes rc with BaseNeighbor := tn.RightNeighbor, RightNeighbor := some lc }
  let s5 :=
    match tn.LeftNeighbor with
    | none => s4
    | some ln =>
      if (s4.nodes ln).BaseNeighbor = some ti then
        setNode s4 ln { s4.nodes ln with BaseNeighbor := some lc }
      else if (s4.nodes ln).LeftNeighbor = some ti then
        setNode s4 ln { s4.nodes ln with LeftNeighbor := some lc }
      else if (s4.nodes ln).RightNeighbor = some ti then
        setNode s4 ln { s4.nodes ln with RightNeighbor := some lc }
      else s4
  match tn.RightNeighbor with
  | none => s5
  | some rn =>
    if (s5.nodes rn).BaseNeighbor = some ti then
      setNode s5 rn { s5.nodes rn with BaseNeighbor := some rc }
    else if (s5.nodes rn).RightNeighbor = some ti then
      setNode s5 rn { s5.nodes rn with RightNeighbor := some rc }
    else if (s5.nodes rn).LeftNeighbor = some ti then
      setNode s5 rn { s5.nodes rn with LeftNeighbor := some rc }
    else s5

/-- Patch.cpp lines 261-266: the base neighbor is already a branch, so its
children and the new children are cross-linked, completing the diamond. -/
def splitBaseBranch (s6 : MeshState) (lc rc bl br : Nat) : MeshState :=
  let s7 := setNode s6 bl { s6.nodes bl with RightNeighbor := some rc }
  let s8 := setNode s7 br { s7.nodes br with LeftNeighbor := some lc }
  let s9 := setNode s8 lc { s8.nodes lc with RightNeighbor := some br }
  setNode s9 rc { s9.nodes rc with LeftNeighbor := some bl }

/-- Patch.cpp lines 271-275: edge triangle, the outward neighbor references
of the new children are cleared. -/
def splitBaseEdge (s6 : MeshState) (lc rc : Nat) : MeshState :=
  let s7 := setNode s6 lc { s6.nodes lc with RightNeighbor := none }
  setNode s7 rc { s7.nodes rc with LeftNeighbor := none }

/-- Patch.cpp lines 222-277, the part of Split after the forced pre-split:
allocate the child pair (false on exhaustion), link the children into the
mesh, then complete the base neighbor side — cross-link when it is already
a branch, recursively split it (through the passed recursion, result
discarded) when it is a still-leaf, clear the outward references at a tile
edge. -/
def SplitPost (rec : MeshState → Nat → Option (MeshState × Bool))
    (s1 : MeshState) (ti : Nat) : Option (MeshState × Bool) :=
  match PoolAllocate s1 ti with
  | (s2, false) => some (s2, false)
  | (s2, true) =>
    match (s2.nodes ti).LeftChild, (s2.nodes ti).RightChild with
    | some lc, some rc =>
      match (s2.nodes ti).BaseNeighbor with
      | some bn =>
        if IsBranch (splitLinkChildren s2 ti lc rc) bn then
          match ((splitLinkChildren s2 ti lc rc).nodes bn).LeftChild,
                ((splitLinkChildren s2 ti lc rc).nodes bn).RightChild with
          | some bl, some br =>
            some (splitBaseBranch (splitLinkChildren s2 ti lc rc) lc rc bl br, true)
          | _, _ => none
        else
          (rec (splitLinkChildren s2 ti lc rc) bn).map (fun r => (r.fst, true))
      | none => some (splitBaseEdge (splitLinkChildren s2 ti lc rc) lc rc, true)
    | _, _ => none

/-- Patch.cpp lines 218-220: when this triangle is not in a proper diamond,
force-split the base neighbor first (through the passed recursion), keeping
only the resulting state — the returned status is discarded by the source. -/
def SplitForced (rec : MeshState → Nat → Option (MeshState × Bool))
    (s : MeshState) (ti : Nat) : Option MeshState :=
  match (s.nodes ti).BaseNeighbor with
  | some bn =>
    if (s.nodes bn).BaseNeighbor ≠ some ti then (rec s bn).map Prod.fst
    else some s
  | none => some s

/-- Patch::Split (Patch.cpp lines 212-278), with a fuel bound on the
recursion depth (none means the fuel ran out).  A branch succeeds
immediately; a broken diamond forces a split of the base neighbor with the
result discarded; the rest of the work is SplitPost. -/
def Split : Nat → MeshState → Nat → Option (MeshState × Bool)
  | 0, _, _ => none
  | fuel + 1, s, ti =>
    if ¬ IsLeaf s ti then some (s, true) else
    match SplitForced (Split fuel) s ti with
    | none => none
    | some s1 => SplitPost (Split fuel) s1 ti

/-- The parameters RecursTessellate reads from the enclosing Patch:
VARIANCE_DEPTH and PATCH_SIZE are compile-time constants of the missing
header (modelled from the spec as fixed parameters), the rest are the
members set up by Patch::Tessellate. -/
structure TessParams where
  varianceDepth : Nat
  patchSize : Nat
  currentVariance : Nat → ℚ
  varianceMaxLimit : ℚ
  camDistLODFactor : ℚ

/-- The scaled variance computed at Patch.cpp lines 289-301: defaults to 10
beyond the stored depth, otherwise the clamped stored error scaled by patch
size, triangle extent and the camera distance LOD factor. -/
def TriVariance (P : TessParams) (left rght : int2) (node : Nat) : ℚ :=
  if node < 2 ^ P.varianceDepth then
    min (P.currentVariance node) P.varianceMaxLimit * (P.patchSize : ℚ) *
      ((max (max (left.x - rght.x) (rght.x - left.x))
            (max (left.y - rght.y) (rght.y - left.y)) : Int) : ℚ) *
      P.camDistLODFactor
  else 10

/-- Patch::RecursTessellate (Patch.cpp lines 282-316), with fuel: stop once
the hypotenuse spans at most one grid unit in both axes, stop when the
scaled variance is at most 1, otherwise Split the node and, when it is a
branch, recurse into both children. -/
def RecursTessellate :
    Nat → TessParams → MeshState → Nat → int2 → int2 → int2 → Nat → Option MeshState
  | 0, _, _, _, _, _, _, _ => none
  | fuel + 1, P, s, ti, left, rght, apex, node =>
    if (left.x - rght.x).natAbs ≤ 1 ∧ (left.y - rght.y).natAbs ≤ 1 then some s
    else if TriVariance P left rght node ≤ 1 then some s
    else
      match Split fuel s ti with
      | none => none
      | some (s1, _) =>
        if IsBranch s1 ti then
          match (s1.nodes ti).LeftChild, (s1.nodes ti).RightChild with
          | some lc, some rc =>
            match RecursTessellate fuel P s1 lc apex left
                    ⟨Int.fdiv (left.x + rght.x) 2, Int.fdiv (left.y + rght.y) 2⟩
                    (2 * node) with
            | none => none
            | some sa =>
              RecursTessellate fuel P sa rc rght apex
                ⟨Int.fdiv (left.x + rght.x) 2, Int.fdiv (left.y + rght.y) 2⟩
                (2 * node + 1)
          | _, _ => none
        else some s1

/-- Patch::GetHeight (Patch.cpp lines 437-444): the y component stored in
the vertex array at a grid position, for tile edge length S. -/
def GetHeight (S : Nat) (verts : Int → ℚ) (pos : int2) : ℚ :=
  verts ((pos.y * ((S : Int) + 1) + pos.x) * 3 + 1)

/-- Patch.cpp lines 462-476: the own error of one node before merging with
the children, that is the absolute midpoint deviation with the shoreline
amplification applied. -/
def shoreVariance (S : Nat) (verts : Int → ℚ) (left rght : int2) (hgts : float3) : ℚ :=
  let mhgt := GetHeight S verts
    ⟨Int.fdiv (left.x + rght.x) 2, Int.fdiv (left.y + rght.y) 2⟩
  let v0 := abs (mhgt - (hgts.x + hgts.y) * (1 / 2))
  if hgts.x * hgts.y < 0 ∨ hgts.x * mhgt < 0 ∨ hgts.y * mhgt < 0 then
    max (v0 * (3 / 2)) 20
  else v0

/-- Patch::RecursComputeVariance (Patch.cpp lines 446-501), with fuel: the
error of a node is the distance between the true hypotenuse midpoint height
and the interpolated one, amplified on shorelines, maxed with the child
errors when the block is at least 4 wide, clamped to a strictly positive
minimum, and stored when the node index is below the depth bound. -/
def RecursComputeVariance :
    Nat → Nat → (Int → ℚ) → Nat → (Nat → ℚ) →
    int2 → int2 → int2 → float3 → Nat → Option ((Nat → ℚ) × ℚ)
  | 0, _, _, _, _, _, _, _, _, _ => none
  | fuel + 1, S, verts, D, arr, left, rght, apex, hgts, node =>
    match (if 4 ≤ (left.x - rght.x).natAbs ∨ 4 ≤ (left.y - rght.y).natAbs then
             match RecursComputeVariance fuel S verts D arr apex left
                     ⟨Int.fdiv (left.x + rght.x) 2, Int.fdiv (left.y + rght.y) 2⟩
                     ⟨hgts.z, hgts.x,
                      GetHeight S verts ⟨Int.fdiv (left.x + rght.x) 2,
                                         Int.fdiv (left.y + rght.y) 2⟩⟩
                     (2 * node) with
             | none => none
             | some (arrA, c1) =>
               match RecursComputeVariance fuel S verts D arrA rght apex
                       ⟨Int.fdiv (left.x + rght.x) 2, Int.fdiv (left.y + rght.y) 2⟩
                       ⟨hgts.y, hgts.z,
                        GetHeight S verts ⟨Int.fdiv (left.x + rght.x) 2,
                                           Int.fdiv (left.y + rght.y) 2⟩⟩
                       (2 * node + 1) with
               | none => none
               | some (arrB, c2) =>
                 some (arrB, max (max (shoreVariance S verts left rght hgts) c1) c2)
           else some (arr, shoreVariance S verts left rght hgts)) with
    | none => none
    | some (arrB, v2) =>
      if node < 2 ^ D then
        some (fun j => if j = node then max (1 / 1000) v2 else arrB j, max (1 / 1000) v2)
      else
        some (arrB, max (1 / 1000) v2)

/-- The variance array state a Patch carries, as filled by the constructor
(Patch.cpp lines 113-125): both arrays zero. -/
def patchCtorVariance : Nat → ℚ := fun _ => 0

/-- Patch::ComputeVariance (Patch.cpp lines 504-538): run the recursion on
each half with the corner heights as seeds and clear the dirty flag. -/
def ComputeVariance (fuel S D : Nat) (verts : Int → ℚ) (vL vR : Nat → ℚ) :
    Option ((Nat → ℚ) × (Nat → ℚ) × Bool) :=
  match RecursComputeVariance fuel S verts D vL ⟨0, S⟩ ⟨S, 0⟩ ⟨0, 0⟩
          ⟨GetHeight S verts ⟨0, S⟩, GetHeight S verts ⟨S, 0⟩,
           GetHeight S verts ⟨0, 0⟩⟩ 1 with
  | none => none
  | some (vL2, _) =>
    match RecursComputeVariance fuel S verts D vR ⟨S, 0⟩ ⟨0, S⟩ ⟨S, S⟩
            ⟨GetHeight S verts ⟨S, 0⟩, GetHeight S verts ⟨0, S⟩,
             GetHeight S verts ⟨S, S⟩⟩ 1 with
    | none => none
    | some (vR2, _) => some (vL2, vR2, false)

/-- Patch::RecursGenIndices (Patch.cpp lines 319-332), with fuel: a leaf
emits its apex, left and right corner indices, a branch recurses into both
children around the hypotenuse midpoint. -/
def RecursGenIndices :
    Nat → Nat → MeshState → Nat → int2 → int2 → int2 → Option (List Int)
  | 0, _, _, _, _, _, _ => none
  | fuel + 1, S, s, ti, left, rght, apex =>
    if IsLeaf s ti then
      some [apex.x + apex.y * ((S : Int) + 1),
            left.x + left.y * ((S : Int) + 1),
            rght.x + rght.y * ((S : Int) + 1)]
    else
      match (s.nodes ti).LeftChild, (s.nodes ti).RightChild with
      | some lc, some rc =>
        match RecursGenIndices fuel S s lc apex left
                ⟨Int.fdiv (left.x + rght.x) 2, Int.fdiv (left.y + rght.y) 2⟩ with
        | none => none
        | some l1 =>
          match RecursGenIndices fuel S s rc rght apex
                  ⟨Int.fdiv (left.x + rght.x) 2, Int.fdiv (left.y + rght.y) 2⟩ with
          | none => none
          | some l2 => some (l1 ++ l2)
      | _, _ => none

/-- Patch::GenerateIndices (Patch.cpp lines 334-341): clear the index list
and walk both base triangles. -/
def GenerateIndices (fuel S : Nat) (s : MeshState) (bl br : Nat) : Option (List Int) :=
  match RecursGenIndices fuel S s bl ⟨0, S⟩ ⟨S, 0⟩ ⟨0, 0⟩ with
  | none => none
  | some l1 =>
    match RecursGenIndices fuel S s br ⟨S, 0⟩ ⟨0, S⟩ ⟨S, S⟩ with
    | none => none
    | some l2 => some (l1 ++ l2)

/-- The RGBA color attached to a border vertex. -/
structure Color4 where
  r : Nat
  g : Nat
  b : Nat
  a : Nat
deriving DecidableEq

/-- The opaque white border color (Patch.cpp line 378). -/
def whiteColor : Color4 := ⟨255, 255, 255, 255⟩

/-- The transparent border color (Patch.cpp line 379). -/
def transColor : Color4 := ⟨255, 255, 255, 0⟩

/-- VA_TYPE_C: a border vertex, position plus color. -/
structure VA_TYPE_C where
  pos : float3
  col : Color4
deriving DecidableEq

/-- Read one float3 position out of the flat vertex array, for tile edge
length S (Patch.cpp lines 374-376). -/
def readVertex (S : Nat) (verts : Int → ℚ) (p : int2) : float3 :=
  ⟨verts ((p.x + p.y * ((S : Int) + 1)) * 3),
   verts ((p.x + p.y * ((S : Int) + 1)) * 3 + 1),
   verts ((p.x + p.y * ((S : Int) + 1)) * 3 + 2)⟩

/-- Patch::RecursGenBorderVertices (Patch.cpp lines 366-433), with fuel: a
boundary leaf emits a skirt quad of six vertices chosen by depth parity; a
branch descends into both children at even depths and with a forced left
bias at odd depths. -/
def RecursGenBorderVertices :
    Nat → Nat → MeshState → (Int → ℚ) → Nat → int2 → int2 → int2 →
    Nat × Bool → Option (List VA_TYPE_C)
  | 0, _, _, _, _, _, _, _, _ => none
  | fuel + 1, S, s, verts, ti, left, rght, apex, depth =>
    if IsLeaf s ti then
      some (
        if depth.1 % 2 = 0 then
          [⟨readVertex S verts left, whiteColor⟩,
           ⟨⟨(readVertex S verts left).x, -400, (readVertex S verts left).z⟩, transColor⟩,
           ⟨readVertex S verts rght, whiteColor⟩,
           ⟨⟨(readVertex S verts left).x, -400, (readVertex S verts left).z⟩, transColor⟩,
           ⟨⟨(readVertex S verts rght).x, -400, (readVertex S verts rght).z⟩, transColor⟩,
           ⟨readVertex S verts rght, whiteColor⟩]
        else if depth.2 then
          [⟨readVertex S verts apex, whiteColor⟩,
           ⟨⟨(readVertex S verts apex).x, -400, (readVertex S verts apex).z⟩, transColor⟩,
           ⟨readVertex S verts left, whiteColor⟩,
           ⟨⟨(readVertex S verts apex).x, -400, (readVertex S verts apex).z⟩, transColor⟩,
           ⟨⟨(readVertex S verts left).x, -400, (readVertex S verts left).z⟩, transColor⟩,
           ⟨readVertex S verts left, whiteColor⟩]
        else
          [⟨readVertex S verts rght, whiteColor⟩,
           ⟨⟨(readVertex S verts rght).x, -400, (readVertex S verts rght).z⟩, transColor⟩,
           ⟨readVertex S verts apex, whiteColor⟩,
           ⟨⟨(readVertex S verts rght).x, -400, (readVertex S verts rght).z⟩, transColor⟩,
           ⟨⟨(readVertex S verts apex).x, -400, (readVertex S verts apex).z⟩, transColor⟩,
           ⟨readVertex S verts apex, whiteColor⟩])
    else
      match (s.nodes ti).LeftChild, (s.nodes ti).RightChild with
      | some lc, some rc =>
        if depth.1 % 2 = 0 then
          match RecursGenBorderVertices fuel S s verts lc apex left
                  ⟨Int.fdiv (left.x + rght.x) 2, Int.fdiv (left.y + rght.y) 2⟩
                  (depth.1 + 1, ! depth.2) with
          | none => none
          | some l1 =>
            match RecursGenBorderVertices fuel S s verts rc rght apex
                    ⟨Int.fdiv (left.x + rght.x) 2, Int.fdiv (left.y + rght.y) 2⟩
                    (depth.1 + 1, depth.2) with
            | none => none
            | some l2 => some (l1 ++ l2)
        else if depth.2 then
          RecursGenBorderVertices fuel S s verts lc apex left
            ⟨Int.fdiv (left.x + rght.x) 2, Int.fdiv (left.y + rght.y) 2⟩
            (depth.1 + 1, true)
        else
          RecursGenBorderVertices fuel S s verts rc rght apex
            ⟨Int.fdiv (left.x + rght.x) 2, Int.fdiv (left.y + rght.y) 2⟩
            (depth.1 + 1, true)
      | _, _ => none

/-- The per-Patch state GenerateBorderVertices touches: the mesh with the
two base triangles, the vertex array, the tessellated flag and the border
vertex list. -/
structure PatchState where
  mesh : MeshState
  baseLeftIdx : Nat
  baseRightIdx : Nat
  vertices : Int → ℚ
  isTesselated : Bool
  borderVertices : List VA_TYPE_C

/-- Patch::GenerateBorderVertices (Patch.cpp lines 345-364): return at once
when the tessellated flag is clear, otherwise clear the flag, rebuild the
border vertex list from the boundary walks of the two base triangles. -/
def GenerateBorderVertices (fuel S : Nat) (p : PatchState) : Option PatchState :=
  if p.isTesselated = false then some p
  else
    match (if (p.mesh.nodes p.baseLeftIdx).LeftNeighbor = none then
             RecursGenBorderVertices fuel S p.mesh p.vertices p.baseLeftIdx
               ⟨0, S⟩ ⟨S, 0⟩ ⟨0, 0⟩ (1, true)
           else some []) with
    | none => none
    | some l1 =>
      match (if (p.mesh.nodes p.baseLeftIdx).RightNeighbor = none then
               RecursGenBorderVertices fuel S p.mesh p.vertices p.baseLeftIdx
                 ⟨0, S⟩ ⟨S, 0⟩ ⟨0, 0⟩ (1, false)
             else some []) with
      | none => none
      | some l2 =>
        match (if (p.mesh.nodes p.baseRightIdx).RightNeighbor = none then
                 RecursGenBorderVertices fuel S p.mesh p.vertices p.baseRightIdx
                   ⟨S, 0⟩ ⟨0, S⟩ ⟨S, S⟩ (1, false)
               else some []) with
        | none => none
        | some l3 =>
          match (if (p.mesh.nodes p.baseRightIdx).LeftNeighbor = none then
                   RecursGenBorderVertices fuel S p.mesh p.vertices p.baseRightIdx
                     ⟨S, 0⟩ ⟨0, S⟩ ⟨S, S⟩ (1, true)
                 else some []) with
          | none => none
          | some l4 =>
            some { p with isTesselated := false,
                          borderVertices := l1 ++ l2 ++ l3 ++ l4 }

/- Helper lemmas about the node pool. -/

theorem zeroFirst_length (n : Nat) (l : List TriTreeNode) :
    (zeroFirst n l).length = l.length := by
  induction l generalizing n with
  | nil => cases n <;> rfl
  | cons h t ih =>
    cases n with
    | zero => rfl
    | succ m => simpa [zeroFirst] using ih m

theorem zeroFirst_get?_lt (n i : Nat) (l : List TriTreeNode)
    (hi : i < n) (hl : i < l.length) :
    (zeroFirst n l).get? i = some zeroTriTreeNode := by
  induction l generalizing n i with
  | nil => simp at hl
  | cons h t ih =>
    cases n with
    | zero => omega
    | succ m =>
      cases i with
      | zero => rfl
      | succ j =>
        have := ih m j (by omega) (by simpa using hl)
        simpa [zeroFirst] using this

theorem resetAllLoop_spec (l : List CTriNodePool) (b : Bool) :
    resetAllLoop l b =
      (l.map CTriNodePool.Reset, b || l.any (fun p => decide p.OutOfNodes)) := by
  induction l generalizing b with
  | nil => simp [resetAllLoop]
  | cons p ps ih => simp [resetAllLoop, ih, Bool.or_assoc]

theorem reset_pool_length (q : CTriNodePool) :
    q.Reset.pool.length = q.pool.length :=
  zeroFirst_length q.nextTriNodeIdx q.pool

theorem ResetAll_pools_shape (numThreads : Nat) (st : PoolsState) :
    (ResetAll numThreads st).pools = st.pools.map CTriNodePool.Reset ∨
    ∃ sz, (ResetAll numThreads st).pools =
            List.replicate numThreads (mkCTriNodePool sz) := by
  simp only [ResetAll, resetAllLoop_spec]
  split
  · exact Or.inl rfl
  · split
    · exact Or.inl rfl
    · exact Or.inr ⟨_, rfl⟩

/-- C5: CTriNodePool::Allocate either fails on an exhausted pool — false,
both outputs null, the cursor and contents untouched — or succeeds handing
out the two distinct consecutive nodes at the cursor, advancing it by two;
the bounds conjunct uses the constructor invariant that the pool size is
even and the pair-allocation invariant that the cursor is even. -/
theorem claim_C5_allocate_contract (p : CTriNodePool) :
    (p.OutOfNodes → p.Allocate = (p, none, none, false)) ∧
    (¬ p.OutOfNodes →
       p.Allocate = ({ p with nextTriNodeIdx := p.nextTriNodeIdx + 2 },
                     some p.nextTriNodeIdx, some (p.nextTriNodeIdx + 1), true) ∧
       p.nextTriNodeIdx ≠ p.nextTriNodeIdx + 1 ∧
       (p.pool.length % 2 = 0 → p.nextTriNodeIdx % 2 = 0 →
          p.nextTriNodeIdx + 1 < p.pool.length)) := by
  constructor
  · intro h
    simp [CTriNodePool.Allocate, h]
  · intro h
    have hlt : p.nextTriNodeIdx < p.pool.length := by
      unfold CTriNodePool.OutOfNodes at h
      omega
    refine ⟨by simp [CTriNodePool.Allocate, h], by omega, ?_⟩
    intro he hc
    omega

/-- C6: after a Reset of a pool with a positive cursor, an immediate
Allocate hands out the nodes at indices 0 and 1 of the pool region, and
every previously issued entry of the region has been zero-cleared. -/
theorem claim_C6_reset_then_allocate (p : CTriNodePool)
    (hpos : 0 < p.nextTriNodeIdx) (hle : p.nextTriNodeIdx ≤ p.pool.length) :
    p.Reset.Allocate = ({ p.Reset with nextTriNodeIdx := 2 }, some 0, some 1, true) ∧
    (∀ i, i < p.nextTriNodeIdx → p.Reset.pool.get? i = some zeroTriTreeNode) := by
  constructor
  · have hno : ¬ p.Reset.OutOfNodes := by
      simp only [CTriNodePool.OutOfNodes, reset_pool_length]
      show ¬ p.pool.length ≤ p.Reset.nextTriNodeIdx
      have h0 : p.Reset.nextTriNodeIdx = 0 := rfl
      omega
    simp only [CTriNodePool.Allocate, if_neg hno]
    rfl
  · intro i hi
    exact zeroFirst_get?_lt p.nextTriNodeIdx i p.pool hi (by omega)

/-- A pool used for the C6 witness, with dirty references in the issued
region. -/
def w6pool : CTriNodePool :=
  ⟨[{ zeroTriTreeNode with BaseNeighbor := some 7 },
    { zeroTriTreeNode with LeftChild := some 3 },
    { zeroTriTreeNode with RightNeighbor := some 5 },
    zeroTriTreeNode], 2⟩

theorem claim_C6_reset_then_allocate_witness :
    0 < w6pool.nextTriNodeIdx ∧ w6pool.nextTriNodeIdx ≤ w6pool.pool.length ∧
    (w6pool.Reset.Allocate =
       ({ w6pool.Reset with nextTriNodeIdx := 2 }, some 0, some 1, true) ∧
     (∀ i, i < w6pool.nextTriNodeIdx →
        w6pool.Reset.pool.get? i = some zeroTriTreeNode)) :=
  ⟨by decide, by decide,
   claim_C6_reset_then_allocate w6pool (by decide) (by decide)⟩

/-- C7: ResetAll resets every worker pool; with no exhausted pool it only
resets them, leaving the stored sizes and the global size unchanged; with
at least one exhausted pool and the current global size below the cap it
rebuilds all pools at the capped doubled size min(2 * current, cap). -/
theorem claim_C7_resetall_contract (numThreads : Nat) (st : PoolsState) :
    ((∀ p ∈ st.pools, ¬ p.OutOfNodes) →
       ResetAll numThreads st = { st with pools := st.pools.map CTriNodePool.Reset } ∧
       (ResetAll numThreads st).pools.map (fun p => p.pool.length) =
         st.pools.map (fun p => p.pool.length) ∧
       (ResetAll numThreads st).curPoolSize = st.curPoolSize) ∧
    ((∃ p ∈ st.pools, p.OutOfNodes) → st.curPoolSize < st.maxPoolSize →
       (ResetAll numThreads st).curPoolSize = min (st.curPoolSize * 2) st.maxPoolSize ∧
       (ResetAll numThreads st).pools =
         List.replicate numThreads (mkCTriNodePool
           (max (min (st.curPoolSize * 2) st.maxPoolSize / numThreads)
                (min (st.curPoolSize * 2) st.maxPoolSize / 3) +
            max (min (st.curPoolSize * 2) st.maxPoolSize / numThreads)
                (min (st.curPoolSize * 2) st.maxPoolSize / 3) % 2))) ∧
    (∀ p ∈ (ResetAll numThreads st).pools, p.nextTriNodeIdx = 0) := by
  refine ⟨?_, ?_, ?_⟩
  · intro hno
    have ha : st.pools.any (fun p => decide p.OutOfNodes) = false := by
      rw [List.any_eq_false]
      intro x hx
      simpa using hno x hx
    have hres : ResetAll numThreads st =
        { st with pools := st.pools.map CTriNodePool.Reset } := by
      simp [ResetAll, resetAllLoop_spec, ha]
    refine ⟨hres, ?_, by rw [hres]⟩
    rw [hres]
    simp [List.map_map, Function.comp_def, reset_pool_length]
  · intro hex hlt
    obtain ⟨p, hp, hpo⟩ := hex
    have ha : st.pools.any (fun p => decide p.OutOfNodes) = true :=
      List.any_eq_true.mpr ⟨p, hp, decide_eq_true hpo⟩
    have hml : ¬ st.maxPoolSize ≤ st.curPoolSize := by omega
    have hres : ResetAll numThreads st =
        InitPools numThreads { st with pools := st.pools.map CTriNodePool.Reset }
          (min (st.curPoolSize * 2) st.maxPoolSize) := by
      simp [ResetAll, resetAllLoop_spec, ha, hml]
    exact ⟨by rw [hres]; rfl, by rw [hres]; rfl⟩
  · intro p hp
    rcases ResetAll_pools_shape numThreads st with hsh | ⟨sz, hsh⟩
    · rw [hsh] at hp
      obtain ⟨q, _, hq⟩ := List.mem_map.mp hp
      rw [← hq]
      rfl
    · rw [hsh] at hp
      rw [(List.mem_replicate.mp hp).2]
      rfl

/- Helper lemmas about the mesh arena and Split. -/

theorem setNode_poolSize (s : MeshState) (i : Nat) (n : TriTreeNode) :
    (setNode s i n).poolSize = s.poolSize := rfl

theorem setNode_next (s : MeshState) (i : Nat) (n : TriTreeNode) :
    (setNode s i n).nextTriNodeIdx = s.nextTriNodeIdx := rfl

theorem setNode_nodes (s : MeshState) (i : Nat) (n : TriTreeNode) (j : Nat) :
    (setNode s i n).nodes j = if j = i then n else s.nodes j := rfl

theorem splitLinkChildren_poolSize (s2 : MeshState) (ti lc rc : Nat) :
    (splitLinkChildren s2 ti lc rc).poolSize = s2.poolSize := by
  dsimp only [splitLinkChildren]
  repeat' split
  all_goals rfl

theorem splitLinkChildren_next (s2 : MeshState) (ti lc rc : Nat) :
    (splitLinkChildren s2 ti lc rc).nextTriNodeIdx = s2.nextTriNodeIdx := by
  dsimp only [splitLinkChildren]
  repeat' split
  all_goals rfl

theorem splitBaseBranch_poolSize (s6 : MeshState) (lc rc bl br : Nat) :
    (splitBaseBranch s6 lc rc bl br).poolSize = s6.poolSize := rfl

theorem splitBaseBranch_next (s6 : MeshState) (lc rc bl br : Nat) :
    (splitBaseBranch s6 lc rc bl br).nextTriNodeIdx = s6.nextTriNodeIdx := rfl

theorem splitBaseEdge_poolSize (s6 : MeshState) (lc rc : Nat) :
    (splitBaseEdge s6 lc rc).poolSize = s6.poolSize := rfl

theorem splitBaseEdge_next (s6 : MeshState) (lc rc : Nat) :
    (splitBaseEdge s6 lc rc).nextTriNodeIdx = s6.nextTriNodeIdx := rfl

theorem PoolAllocate_poolSize (s : MeshState) (ti : Nat) :
    (PoolAllocate s ti).1.poolSize = s.poolSize := by
  unfold PoolAllocate
  split <;> rfl

theorem PoolAllocate_next_ge (s : MeshState) (ti : Nat) :
    s.nextTriNodeIdx ≤ (PoolAllocate s ti).1.nextTriNodeIdx := by
  unfold PoolAllocate
  split
  · exact le_rfl
  · show s.nextTriNodeIdx ≤ s.nextTriNodeIdx + 2
    omega

theorem PoolAllocate_false (s : MeshState) (ti : Nat) (s2 : MeshState)
    (h : PoolAllocate s ti = (s2, false)) :
    s.OutOfNodes ∧
    s2 = setNode s ti { s.nodes ti with LeftChild := none, RightChild := none } := by
  unfold PoolAllocate at h
  by_cases hO : s.OutOfNodes
  · rw [if_pos hO] at h
    injection h with h1 h2
    exact ⟨hO, h1.symm⟩
  · rw [if_neg hO] at h
    injection h with h1 h2
    simp at h2

theorem SplitPost_exhausted (rec : MeshState → Nat → Option (MeshState × Bool))
    (s1 : MeshState) (ti : Nat) (hO : s1.OutOfNodes) :
    SplitPost rec s1 ti =
      some (setNode s1 ti { s1.nodes ti with LeftChild := none, RightChild := none },
            false) := by
  unfold SplitPost PoolAllocate
  rw [if_pos hO]

theorem SplitPost_false_alloc (rec : MeshState → Nat → Option (MeshState × Bool))
    (s1 : MeshState) (ti : Nat) (s2 : MeshState)
    (h : SplitPost rec s1 ti = some (s2, false)) :
    PoolAllocate s1 ti = (s2, false) := by
  unfold SplitPost at h
  split at h
  · rename_i sA heq
    simp only [Option.some.injEq, Prod.mk.injEq] at h
    obtain ⟨rfl, -⟩ := h
    exact heq
  · rename_i sA heq
    exfalso
    repeat' split at h
    · simp at h
    · simp at h
    · rw [Option.map_eq_some'] at h
      obtain ⟨a, ha, hmk⟩ := h
      simp at hmk
    · simp at h
    · simp at h

theorem SplitForced_spec (rec : MeshState → Nat → Option (MeshState × Bool))
    (s : MeshState) (ti : Nat) (s1 : MeshState)
    (h : SplitForced rec s ti = some s1) :
    s1 = s ∨ ∃ bn b1, rec s bn = some (s1, b1) := by
  unfold SplitForced at h
  split at h
  · rename_i bn hbn
    split at h
    · rw [Option.map_eq_some'] at h
      obtain ⟨⟨sB, bB⟩, hr, he⟩ := h
      have he2 : sB = s1 := he
      subst he2
      exact Or.inr ⟨bn, bB, hr⟩
    · simp only [Option.some.injEq] at h
      exact Or.inl h.symm
  · simp only [Option.some.injEq] at h
    exact Or.inl h.symm

theorem SplitPost_sizes (rec : MeshState → Nat → Option (MeshState × Bool))
    (hrec : ∀ s ti s2 b, rec s ti = some (s2, b) →
      s2.poolSize = s.poolSize ∧ s.nextTriNodeIdx ≤ s2.nextTriNodeIdx)
    (s1 : MeshState) (ti : Nat) (s2 : MeshState) (b : Bool)
    (h : SplitPost rec s1 ti = some (s2, b)) :
    s2.poolSize = s1.poolSize ∧ s1.nextTriNodeIdx ≤ s2.nextTriNodeIdx := by
  unfold SplitPost at h
  split at h
  · rename_i sA heq
    simp only [Option.some.injEq, Prod.mk.injEq] at h
    obtain ⟨rfl, rfl⟩ := h
    have h1 : (PoolAllocate s1 ti).1 = sA := by rw [heq]
    constructor
    · rw [← h1]
      exact PoolAllocate_poolSize s1 ti
    · rw [← h1]
      exact PoolAllocate_next_ge s1 ti
  · rename_i sA heq
    have h1 : (PoolAllocate s1 ti).1 = sA := by rw [heq]
    have hps : sA.poolSize = s1.poolSize := by
      rw [← h1]
      exact PoolAllocate_poolSize s1 ti
    have hnx : s1.nextTriNodeIdx ≤ sA.nextTriNodeIdx := by
      rw [← h1]
      exact PoolAllocate_next_ge s1 ti
    clear h1 heq
    repeat' split at h
    · simp only [Option.some.injEq, Prod.mk.injEq] at h
      obtain ⟨rfl, rfl⟩ := h
      rw [splitBaseBranch_poolSize, splitBaseBranch_next,
          splitLinkChildren_poolSize, splitLinkChildren_next]
      exact ⟨hps, hnx⟩
    · exact Option.noConfusion h
    · rw [Option.map_eq_some'] at h
      obtain ⟨⟨sB, bB⟩, hr, hmk⟩ := h
      have hmk2 : (sB, true) = (s2, b) := hmk
      injection hmk2 with e1 e2
      subst e1
      subst e2
      have hrb := hrec _ _ _ _ hr
      rw [splitLinkChildren_poolSize, splitLinkChildren_next] at hrb
      exact ⟨by rw [hrb.1, hps], le_trans hnx hrb.2⟩
    · simp only [Option.some.injEq, Prod.mk.injEq] at h
      obtain ⟨rfl, rfl⟩ := h
      rw [splitBaseEdge_poolSize, splitBaseEdge_next,
          splitLinkChildren_poolSize, splitLinkChildren_next]
      exact ⟨hps, hnx⟩
    · exact Option.noConfusion h

theorem Split_sizes (fuel : Nat) :
    ∀ s ti s2 b, Split fuel s ti = some (s2, b) →
      s2.poolSize = s.poolSize ∧ s.nextTriNodeIdx ≤ s2.nextTriNodeIdx := by
  induction fuel with
  | zero =>
    intro s ti s2 b h
    simp [Split] at h
  | succ n ih =>
    intro s ti s2 b h
    simp only [Split] at h
    by_cases hL : IsLeaf s ti
    · rw [if_neg (not_not_intro hL)] at h
      rcases hf : SplitForced (Split n) s ti with _ | s1
      · rw [hf] at h
        exact Option.noConfusion
          (show (none : Option (MeshState × Bool)) = some (s2, b) from h)
      · rw [hf] at h
        have h2 : SplitPost (Split n) s1 ti = some (s2, b) := h
        have hC := SplitPost_sizes (Split n) ih s1 ti s2 b h2
        rcases SplitForced_spec (Split n) s ti s1 hf with rfl | ⟨bn, b1, hr⟩
        · exact hC
        · have hB := ih s bn s1 b1 hr
          exact ⟨by rw [hC.1, hB.1], le_trans hB.2 hC.2⟩
    · rw [if_pos hL] at h
      simp only [Option.some.injEq, Prod.mk.injEq] at h
      obtain ⟨rfl, rfl⟩ := h
      exact ⟨rfl, le_rfl⟩

/-- C8: calling Split on a node that is already a branch returns true
immediately, with the mesh state — every node, every neighbor pointer and
the pool cursor — completely unchanged, so no allocation happens. -/
theorem claim_C8_split_branch_noop (fuel : Nat) (s : MeshState) (ti : Nat)
    (h : IsBranch s ti) : Split (fuel + 1) s ti = some (s, true) := by
  simp only [Split, if_pos (show ¬ IsLeaf s ti from h)]

/-- A mesh with one branch node used for the C8 witness. -/
def w8state : MeshState :=
  ⟨fun j => if j = 0 then { zeroTriTreeNode with LeftChild := some 1, RightChild := some 2 }
            else zeroTriTreeNode, 0, 0⟩

theorem claim_C8_split_branch_noop_witness :
    IsBranch w8state 0 ∧ Split 1 w8state 0 = some (w8state, true) :=
  ⟨by decide, claim_C8_split_branch_noop 0 w8state 0 (by decide)⟩

/-- C1 amended: a Split call that terminates returns false exactly when the
direct allocation of the child pair of tri failed, and then tri is left a
leaf with the pool exhausted; conversely a call started on a leaf with an
already exhausted pool does return false.  (Exhaustion inside the cascaded
split of a still-leaf base neighbor after the own allocation succeeded does
not propagate — see the counterexample.) -/
theorem claim_C1_split_exhaustion (fuel : Nat) (s s2 : MeshState) (ti : Nat) (b : Bool)
    (h : Split fuel s ti = some (s2, b)) :
    (b = false → s2.OutOfNodes ∧ IsLeaf s2 ti) ∧
    (IsLeaf s ti → s.OutOfNodes → b = false) := by
  constructor
  · intro hb
    subst hb
    cases fuel with
    | zero => simp [Split] at h
    | succ n =>
      simp only [Split] at h
      by_cases hL : IsLeaf s ti
      · rw [if_neg (not_not_intro hL)] at h
        rcases hf : SplitForced (Split n) s ti with _ | s1
        · rw [hf] at h
          exact Option.noConfusion
            (show (none : Option (MeshState × Bool)) = some (s2, false) from h)
        · rw [hf] at h
          have h2 : SplitPost (Split n) s1 ti = some (s2, false) := h
          have h3 := SplitPost_false_alloc (Split n) s1 ti s2 h2
          obtain ⟨hO, hsh⟩ := PoolAllocate_false s1 ti s2 h3
          subst hsh
          exact ⟨hO, by simp [IsLeaf, setNode]⟩
      · rw [if_pos hL] at h
        simp only [Option.some.injEq, Prod.mk.injEq] at h
        exact absurd h.2 (by simp)
  · intro hLf hO
    cases fuel with
    | zero => simp [Split] at h
    | succ n =>
      simp only [Split] at h
      rw [if_neg (not_not_intro hLf)] at h
      rcases hf : SplitForced (Split n) s ti with _ | s1
      · rw [hf] at h
        exact Option.noConfusion
          (show (none : Option (MeshState × Bool)) = some (s2, b) from h)
      · rw [hf] at h
        have h2 : SplitPost (Split n) s1 ti = some (s2, b) := h
        have hO1 : s1.OutOfNodes := by
          rcases SplitForced_spec (Split n) s ti s1 hf with rfl | ⟨bn, b1, hr⟩
          · exact hO
          · have hsz := Split_sizes n s bn s1 b1 hr
            unfold MeshState.OutOfNodes at hO ⊢
            omega
        rw [SplitPost_exhausted (Split n) s1 ti hO1] at h2
        simp only [Option.some.injEq, Prod.mk.injEq] at h2
        exact h2.2.symm

/-- A mesh with an exhausted pool and a single leaf used for the C1 witness. -/
def wExhState : MeshState := ⟨fun _ => zeroTriTreeNode, 0, 0⟩

/-- The state the Split of the C1 witness produces. -/
def wExhResult : MeshState :=
  setNode wExhState 3 { wExhState.nodes 3 with LeftChild := none, RightChild := none }

theorem claim_C1_split_exhaustion_witness :
    Split 1 wExhState 3 = some (wExhResult, false) ∧
    ((false = false → wExhResult.OutOfNodes ∧ IsLeaf wExhResult 3) ∧
     (IsLeaf wExhState 3 → wExhState.OutOfNodes → false = false)) :=
  ⟨rfl, claim_C1_split_exhaustion 1 wExhState wExhResult 3 false rfl⟩

/-- A two-node diamond whose pool holds exactly one child pair: the Split of
node 10 succeeds, exhausting the pool, and the cascaded split of the
still-leaf base neighbor 11 then fails — silently. -/
def cexSplitState : MeshState :=
  ⟨fun j => if j = 10 then { zeroTriTreeNode with BaseNeighbor := some 11 }
            else if j = 11 then { zeroTriTreeNode with BaseNeighbor := some 10 }
            else zeroTriTreeNode, 2, 0⟩

/-- C1 counterexample: exhaustion occurs during this Split call — the final
state is out of nodes and the base neighbor 11, whose cascaded split hit
the exhaustion, is still a leaf while node 10 was split — yet the call
returns true, not false as the claim states. -/
theorem claim_C1_counterexample :
    (Split 5 cexSplitState 10).map Prod.snd = some true ∧
    (Split 5 cexSplitState 10).map (fun r => decide r.1.OutOfNodes) = some true ∧
    (Split 5 cexSplitState 10).map (fun r => decide (IsLeaf r.1 11)) = some true ∧
    (Split 5 cexSplitState 10).map (fun r => decide (IsBranch r.1 10)) = some true := by
  refine ⟨rfl, rfl, rfl, rfl⟩

/-- Parameters that make the scaled variance of the root node exactly 1:
depth bound 2, patch size 4, stored error 1/16, large ceiling, LOD factor 1. -/
def cexTessParams : TessParams := ⟨2, 4, fun _ => 1 / 16, 100, 1⟩

/-- A fresh mesh with an empty pool of four nodes; node 7 is a root leaf. -/
def cexTessState : MeshState := ⟨fun _ => zeroTriTreeNode, 4, 0⟩

/-- C3 counterexample: on a node whose hypotenuse spans more than one grid
unit and whose scaled variance is exactly 1.0, RecursTessellate returns
with the state unchanged and the node still a leaf — the code stops when
the variance is at or below 1 (Patch.cpp line 304), while the claim says a
variance at 1.0 must lead to a Split. -/
theorem claim_C3_counterexample :
    RecursTessellate 1 cexTessParams cexTessState 7 ⟨0, 4⟩ ⟨4, 0⟩ ⟨0, 0⟩ 1 =
      some cexTessState ∧
    TriVariance cexTessParams ⟨0, 4⟩ ⟨4, 0⟩ 1 = 1 ∧
    ¬(((0 : Int) - 4).natAbs ≤ 1 ∧ ((4 : Int) - 0).natAbs ≤ 1) ∧
    IsLeaf cexTessState 7 := by
  have htv : TriVariance cexTessParams ⟨0, 4⟩ ⟨4, 0⟩ 1 = 1 := by
    simp only [TriVariance, cexTessParams]
    norm_num
  refine ⟨?_, htv, by decide, by decide⟩
  show RecursTessellate (0 + 1) cexTessParams cexTessState 7 ⟨0, 4⟩ ⟨4, 0⟩ ⟨0, 0⟩ 1 =
    some cexTessState
  simp only [RecursTessellate]
  norm_num [htv]

/-- C3 amended: at a node whose hypotenuse spans more than one grid unit,
the recursion stops with the state unchanged when the scaled variance is at
or below the unit threshold 1.0, and only when it is strictly above 1.0 is
the node Split and, if the node then is a branch, both children recursed
into. -/
theorem claim_C3_tessellate_decision (fuel : Nat) (P : TessParams)
    (s s2 : MeshState) (ti : Nat) (left rght apex : int2) (node : Nat)
    (hspan : ¬((left.x - rght.x).natAbs ≤ 1 ∧ (left.y - rght.y).natAbs ≤ 1)) :
    (TriVariance P left rght node ≤ 1 →
       RecursTessellate (fuel + 1) P s ti left rght apex node = some s) ∧
    (1 < TriVariance P left rght node →
       RecursTessellate (fuel + 1) P s ti left rght apex node = some s2 →
       ∃ s1 b, Split fuel s ti = some (s1, b) ∧
         (¬ IsBranch s1 ti → s2 = s1) ∧
         (IsBranch s1 ti →
           ∃ lc rc sa, (s1.nodes ti).LeftChild = some lc ∧
             (s1.nodes ti).RightChild = some rc ∧
             RecursTessellate fuel P s1 lc apex left
               ⟨Int.fdiv (left.x + rght.x) 2, Int.fdiv (left.y + rght.y) 2⟩
               (2 * node) = some sa ∧
             RecursTessellate fuel P sa rc rght apex
               ⟨Int.fdiv (left.x + rght.x) 2, Int.fdiv (left.y + rght.y) 2⟩
               (2 * node + 1) = some s2)) := by
  constructor
  · intro htv
    simp only [RecursTessellate, if_neg hspan, if_pos htv]
  · intro htv h
    simp only [RecursTessellate, if_neg hspan, if_neg (not_le.mpr htv)] at h
    split at h
    · exact Option.noConfusion h
    · rename_i s1 bb heq
      refine ⟨s1, bb, heq, ?_, ?_⟩
      · intro hnb
        rw [if_neg hnb] at h
        simp only [Option.some.injEq] at h
        exact h.symm
      · intro hb
        rw [if_pos hb] at h
        split at h
        · rename_i lc rc hlc hrc
          split at h
          · exact Option.noConfusion h
          · rename_i sa hsa
            exact ⟨lc, rc, sa, hlc, hrc, hsa, h⟩
        · exact Option.noConfusion h

/-- Parameters whose scaled root variance is 1600, well above the unit
threshold, used for the C3 witness. -/
def w3params : TessParams := ⟨2, 4, fun _ => 100, 100, 1⟩

/-- A mesh with an exhausted pool and a single leaf used for the C3 witness. -/
def w3state : MeshState := ⟨fun _ => zeroTriTreeNode, 0, 0⟩

/-- The state the Split inside the C3 witness produces. -/
def w3result : MeshState :=
  setNode w3state 3 { w3state.nodes 3 with LeftChild := none, RightChild := none }

theorem claim_C3_tessellate_decision_witness :
    ¬(((0 : Int) - 4).natAbs ≤ 1 ∧ ((4 : Int) - 0).natAbs ≤ 1) ∧
    ((TriVariance w3params ⟨0, 4⟩ ⟨4, 0⟩ 1 ≤ 1 →
        RecursTessellate (1 + 1) w3params w3state 3 ⟨0, 4⟩ ⟨4, 0⟩ ⟨0, 0⟩ 1 =
          some w3state) ∧
     (1 < TriVariance w3params ⟨0, 4⟩ ⟨4, 0⟩ 1 →
        RecursTessellate (1 + 1) w3params w3state 3 ⟨0, 4⟩ ⟨4, 0⟩ ⟨0, 0⟩ 1 =
          some w3result →
        ∃ s1 b, Split 1 w3state 3 = some (s1, b) ∧
          (¬ IsBranch s1 3 → w3result = s1) ∧
          (IsBranch s1 3 →
            ∃ lc rc sa, (s1.nodes 3).LeftChild = some lc ∧
              (s1.nodes 3).RightChild = some rc ∧
              RecursTessellate 1 w3params s1 lc ⟨0, 0⟩ ⟨0, 4⟩
                ⟨Int.fdiv (0 + 4) 2, Int.fdiv (4 + 0) 2⟩ (2 * 1) = some sa ∧
              RecursTessellate 1 w3params sa rc ⟨4, 0⟩ ⟨0, 0⟩
                ⟨Int.fdiv (0 + 4) 2, Int.fdiv (4 + 0) 2⟩ (2 * 1 + 1) =
                some w3result))) :=
  ⟨by decide,
   claim_C3_tessellate_decision 1 w3params w3state w3result 3 ⟨0, 4⟩ ⟨4, 0⟩ ⟨0, 0⟩ 1
     (by decide)⟩

/- Helper lemmas about the variance recursion.  Subtree n j says that node
index j lies in the implicit binary subtree rooted at node index n. -/

def Subtree (n j : Nat) : Prop := ∃ k, j / 2 ^ k = n

theorem subtree_rfl (n : Nat) : Subtree n n := ⟨0, by simp⟩

theorem subtree_le {n j : Nat} (h : Subtree n j) : n ≤ j := by
  obtain ⟨k, hk⟩ := h
  rw [← hk]
  exact Nat.div_le_self j (2 ^ k)

theorem subtree_step {p j : Nat} (h : Subtree p j) : j = p ∨ Subtree p (j / 2) := by
  obtain ⟨k, hk⟩ := h
  cases k with
  | zero => left; simpa using hk
  | succ m =>
    right
    refine ⟨m, ?_⟩
    rw [Nat.div_div_eq_div_mul, ← pow_succ']
    exact hk

theorem subtree_up {m j : Nat} (h : Subtree (2 * m) j) : Subtree m j := by
  obtain ⟨k, hk⟩ := h
  refine ⟨k + 1, ?_⟩
  rw [pow_succ, ← Nat.div_div_eq_div_mul, hk]
  omega

theorem subtree_up1 {m j : Nat} (h : Subtree (2 * m + 1) j) : Subtree m j := by
  obtain ⟨k, hk⟩ := h
  refine ⟨k + 1, ?_⟩
  rw [pow_succ, ← Nat.div_div_eq_div_mul, hk]
  omega

theorem subtree_disj {m j : Nat} (hm : 1 ≤ m)
    (h1 : Subtree (2 * m) j) (h2 : Subtree (2 * m + 1) j) : False := by
  obtain ⟨a, ha⟩ := h1
  obtain ⟨b, hb⟩ := h2
  rcases Nat.le_total a b with hab | hab
  · have hdd : j / 2 ^ b = j / 2 ^ a / 2 ^ (b - a) := by
      rw [Nat.div_div_eq_div_mul, ← pow_add]
      have he : a + (b - a) = b := by omega
      rw [he]
    rw [ha, hb] at hdd
    rcases Nat.eq_zero_or_pos (b - a) with hz | hpos
    · rw [hz] at hdd
      simp at hdd
    · have h2c : 2 ≤ 2 ^ (b - a) := by
        calc 2 = 2 ^ 1 := (pow_one 2).symm
        _ ≤ 2 ^ (b - a) := Nat.pow_le_pow_right (by norm_num) hpos
      have hle : 2 * m / 2 ^ (b - a) ≤ 2 * m / 2 :=
        Nat.div_le_div_left h2c (by norm_num)
      rw [← hdd] at hle
      omega
  · have hdd : j / 2 ^ a = j / 2 ^ b / 2 ^ (a - b) := by
      rw [Nat.div_div_eq_div_mul, ← pow_add]
      have he : b + (a - b) = a := by omega
      rw [he]
    rw [ha, hb] at hdd
    rcases Nat.eq_zero_or_pos (a - b) with hz | hpos
    · rw [hz] at hdd
      simp at hdd
    · have h2c : 2 ≤ 2 ^ (a - b) := by
        calc 2 = 2 ^ 1 := (pow_one 2).symm
        _ ≤ 2 ^ (a - b) := Nat.pow_le_pow_right (by norm_num) hpos
      have hle : (2 * m + 1) / 2 ^ (a - b) ≤ (2 * m + 1) / 2 :=
        Nat.div_le_div_left h2c (by norm_num)
      rw [← hdd] at hle
      omega

theorem subtree_even {p n : Nat} (h : Subtree p (2 * n)) :
    2 * n = p ∨ Subtree p n := by
  rcases subtree_step h with he | hs
  · exact Or.inl he
  · right
    have : 2 * n / 2 = n := by omega
    rwa [this] at hs

theorem subtree_odd {p n : Nat} (h : Subtree p (2 * n + 1)) :
    2 * n + 1 = p ∨ Subtree p n := by
  rcases subtree_step h with he | hs
  · exact Or.inl he
  · right
    have : (2 * n + 1) / 2 = n := by omega
    rwa [this] at hs

theorem RCV_props (fuel : Nat) :
    ∀ S verts D arr left rght apex hgts node arr2 ret, 1 ≤ node →
      RecursComputeVariance fuel S verts D arr left rght apex hgts node =
        some (arr2, ret) →
      (1 / 1000 : ℚ) ≤ ret ∧
      (∀ j, arr2 j ≠ arr j → Subtree node j ∧ j < 2 ^ D ∧ arr2 j ≤ ret) ∧
      (node < 2 ^ D → arr2 node = ret) := by
  induction fuel with
  | zero =>
    intro S verts D arr left rght apex hgts node arr2 ret hn h
    simp [RecursComputeVariance] at h
  | succ n ih =>
    intro S verts D arr left rght apex hgts node arr2 ret hn h
    simp only [RecursComputeVariance] at h
    split at h
    · exact Option.noConfusion h
    · rename_i arrB v2 heq
      have hB2 : ∀ j, arrB j ≠ arr j → Subtree node j ∧ j < 2 ^ D ∧ arrB j ≤ v2 := by
        intro j hj
        split at heq
        · split at heq
          · exact Option.noConfusion heq
          · rename_i arrA c1 h1
            split at heq
            · exact Option.noConfusion heq
            · rename_i arrB2 c2 h2
              simp only [Option.some.injEq, Prod.mk.injEq] at heq
              obtain ⟨hBe, hv2⟩ := heq
              subst hBe
              subst hv2
              have IH1 := ih S verts D arr apex left _ _ (2 * node) arrA c1
                (by omega) h1
              have IH2 := ih S verts D arrA rght apex _ _ (2 * node + 1) arrB2 c2
                (by omega) h2
              by_cases hd1 : arrA j = arr j
              · have hd2 : arrB2 j ≠ arrA j := fun hc => hj (by rw [hc, hd1])
                obtain ⟨st, hlt, hle⟩ := IH2.2.1 j hd2
                exact ⟨subtree_up1 st, hlt, le_trans hle (le_max_right _ _)⟩
              · obtain ⟨st, hlt, hle⟩ := IH1.2.1 j hd1
                have hd2 : arrB2 j = arrA j := by
                  by_contra hc
                  obtain ⟨st2, -, -⟩ := IH2.2.1 j hc
                  exact subtree_disj hn st st2
                refine ⟨subtree_up st, hlt, ?_⟩
                rw [hd2]
                exact le_trans hle (le_trans (le_max_right _ _) (le_max_left _ _))
        · simp only [Option.some.injEq, Prod.mk.injEq] at heq
          obtain ⟨hBe, -⟩ := heq
          rw [← hBe] at hj
          exact absurd rfl hj
      split at h
      · rename_i hnode
        simp only [Option.some.injEq, Prod.mk.injEq] at h
        obtain ⟨ha2, hret⟩ := h
        subst ha2
        subst hret
        refine ⟨le_max_left _ _, ?_, ?_⟩
        · intro j hj
          by_cases hjn : j = node
          · subst hjn
            exact ⟨subtree_rfl j, hnode, by simp⟩
          · have hj2 : arrB j ≠ arr j := by
              intro hc
              apply hj
              simp [hjn, hc]
            obtain ⟨st, hlt, hle⟩ := hB2 j hj2
            refine ⟨st, hlt, ?_⟩
            simp only [hjn, if_false]
            exact le_trans hle (le_max_right _ _)
        · intro _
          simp
      · rename_i hnode
        simp only [Option.some.injEq, Prod.mk.injEq] at h
        obtain ⟨ha2, hret⟩ := h
        subst ha2
        subst hret
        refine ⟨le_max_left _ _, ?_, fun hc => absurd hc hnode⟩
        intro j hj
        obtain ⟨st, hlt, hle⟩ := hB2 j hj
        exact ⟨st, hlt, le_trans hle (le_max_right _ _)⟩

theorem RCV_mono (fuel : Nat) :
    ∀ S verts D arr left rght apex hgts node arr2 ret, 1 ≤ node →
      RecursComputeVariance fuel S verts D arr left rght apex hgts node =
        some (arr2, ret) →
      ∀ n, 1 ≤ n → arr2 (2 * n) ≠ arr (2 * n) → arr2 (2 * n + 1) ≠ arr (2 * n + 1) →
        arr2 (2 * n) ≤ arr2 n ∧ arr2 (2 * n + 1) ≤ arr2 n := by
  induction fuel with
  | zero =>
    intro S verts D arr left rght apex hgts node arr2 ret hnode h
    simp [RecursComputeVariance] at h
  | succ m ih =>
    intro S verts D arr left rght apex hgts node arr2 ret hnode h n hn hw1 hw2
    simp only [RecursComputeVariance] at h
    split at h
    · exact Option.noConfusion h
    · rename_i arrB v2 heq
      split at heq
      · -- the recursion descended into both children
        split at heq
        · exact Option.noConfusion heq
        · rename_i arrA c1 h1
          split at heq
          · exact Option.noConfusion heq
          · rename_i arrB2 c2 h2
            simp only [Option.some.injEq, Prod.mk.injEq] at heq
            obtain ⟨hBe, hv2⟩ := heq
            subst hBe
            subst hv2
            have P1 := RCV_props m S verts D arr apex left _ _ (2 * node) arrA c1
              (by omega) h1
            have P2 := RCV_props m S verts D arrA rght apex _ _ (2 * node + 1)
              arrB2 c2 (by omega) h2
            have loc1 : ∀ j, arrA j ≠ arr j →
                Subtree (2 * node) j ∧ j < 2 ^ D ∧ arrA j ≤ c1 := P1.2.1
            have loc2 : ∀ j, arrB2 j ≠ arrA j →
                Subtree (2 * node + 1) j ∧ j < 2 ^ D ∧ arrB2 j ≤ c2 := P2.2.1
            have sto1 : 2 * node < 2 ^ D → arrA (2 * node) = c1 := P1.2.2
            have sto2 : 2 * node + 1 < 2 ^ D → arrB2 (2 * node + 1) = c2 := P2.2.2
            have main : arrB2 (2 * n) ≠ arr (2 * n) →
                arrB2 (2 * n + 1) ≠ arr (2 * n + 1) →
                ((n = node ∧ node < 2 ^ D ∧
                    arrB2 (2 * node) = c1 ∧ arrB2 (2 * node + 1) = c2) ∨
                 (n ≠ node ∧ 2 * n ≠ node ∧ 2 * n + 1 ≠ node ∧
                    arrB2 (2 * n) ≤ arrB2 n ∧ arrB2 (2 * n + 1) ≤ arrB2 n)) := by
              intro hB1 hB2
              by_cases hd2a : arrB2 (2 * n) = arrA (2 * n)
              · have hd1a : arrA (2 * n) ≠ arr (2 * n) := by
                  rw [← hd2a]
                  exact hB1
                obtain ⟨stA, hltA, -⟩ := loc1 _ hd1a
                by_cases hd2b : arrB2 (2 * n + 1) = arrA (2 * n + 1)
                · have hd1b : arrA (2 * n + 1) ≠ arr (2 * n + 1) := by
                    rw [← hd2b]
                    exact hB2
                  obtain ⟨stB, hltB, -⟩ := loc1 _ hd1b
                  have hne : 2 * n ≠ 2 * node := by
                    intro e
                    rcases subtree_odd stB with e2 | hsub
                    · omega
                    · have := subtree_le hsub
                      omega
                  rcases subtree_even stA with e | hsubn
                  · exact absurd e hne
                  · have IH1 := ih S verts D arr apex left _ _ (2 * node) arrA c1
                      (by omega) h1 n hn hd1a hd1b
                    have t1 : arrB2 n = arrA n := by
                      by_contra hc
                      exact subtree_disj hnode hsubn (loc2 _ hc).1
                    right
                    refine ⟨?_, ?_, ?_, ?_, ?_⟩
                    · have := subtree_le hsubn
                      omega
                    · have := subtree_le stA
                      omega
                    · have := subtree_le stB
                      omega
                    · rw [t1, hd2a]
                      exact IH1.1
                    · rw [t1, hd2b]
                      exact IH1.2
                · obtain ⟨stB, hltB, -⟩ := loc2 _ hd2b
                  rcases subtree_even stA with e1 | hsub1
                  · have hnn : n = node := by omega
                    subst hnn
                    left
                    refine ⟨rfl, by omega, ?_, ?_⟩
                    · rw [hd2a]
                      exact sto1 hltA
                    · exact sto2 hltB
                  · rcases subtree_odd stB with e2 | hsub2
                    · have := subtree_le hsub1
                      omega
                    · exact (subtree_disj hnode hsub1 hsub2).elim
              · obtain ⟨stA, hltA, -⟩ := loc2 _ hd2a
                by_cases hd2b : arrB2 (2 * n + 1) = arrA (2 * n + 1)
                · have hd1b : arrA (2 * n + 1) ≠ arr (2 * n + 1) := by
                    rw [← hd2b]
                    exact hB2
                  obtain ⟨stB, -, -⟩ := loc1 _ hd1b
                  rcases subtree_even stA with e1 | hsub1
                  · omega
                  · rcases subtree_odd stB with e2 | hsub2
                    · omega
                    · exact (subtree_disj hnode hsub2 hsub1).elim
                · rcases subtree_even stA with e1 | hsubn
                  · omega
                  · have IH2 := ih S verts D arrA rght apex _ _ (2 * node + 1)
                      arrB2 c2 (by omega) h2 n hn hd2a hd2b
                    obtain ⟨stB, -, -⟩ := loc2 _ hd2b
                    right
                    refine ⟨?_, ?_, ?_, IH2.1, IH2.2⟩
                    · have := subtree_le hsubn
                      omega
                    · have := subtree_le stA
                      omega
                    · have := subtree_le stB
                      omega
            split at h
            · rename_i hD
              simp only [Option.some.injEq, Prod.mk.injEq] at h
              obtain ⟨ha2, hret⟩ := h
              subst ha2
              subst hret
              have hA1 : 2 * n ≠ node := by
                intro e
                have hne2 : (2 * n + 1) ≠ node := by omega
                have hch : arrB2 (2 * n + 1) ≠ arr (2 * n + 1) := by
                  intro hc
                  apply hw2
                  simp [hne2, hc]
                by_cases hd2 : arrB2 (2 * n + 1) = arrA (2 * n + 1)
                · have hd1 : arrA (2 * n + 1) ≠ arr (2 * n + 1) := by
                    rw [← hd2]
                    exact hch
                  have := subtree_le (loc1 _ hd1).1
                  omega
                · have := subtree_le (loc2 _ hd2).1
                  omega
              have hA2 : 2 * n + 1 ≠ node := by
                intro e
                have hne2 : (2 * n) ≠ node := by omega
                have hch : arrB2 (2 * n) ≠ arr (2 * n) := by
                  intro hc
                  apply hw1
                  simp [hne2, hc]
                by_cases hd2 : arrB2 (2 * n) = arrA (2 * n)
                · have hd1 : arrA (2 * n) ≠ arr (2 * n) := by
                    rw [← hd2]
                    exact hch
                  have := subtree_le (loc1 _ hd1).1
                  omega
                · have := subtree_le (loc2 _ hd2).1
                  omega
              have hB1 : arrB2 (2 * n) ≠ arr (2 * n) := by
                intro hc
                apply hw1
                simp [hA1, hc]
              have hB2 : arrB2 (2 * n + 1) ≠ arr (2 * n + 1) := by
                intro hc
                apply hw2
                simp [hA2, hc]
              rcases main hB1 hB2 with ⟨hnn, hD2, hc1, hc2⟩ |
                ⟨hnn, hx1, hx2, hle1, hle2⟩
              · subst hnn
                constructor
                · have e2n : (2 * n) ≠ n := by omega
                  simp [e2n, hc1]
                · have e2n : (2 * n + 1) ≠ n := by omega
                  simp [e2n, hc2]
              · constructor
                · simp [hx1, hnn]
                  exact hle1
                · simp [hx2, hnn]
                  exact hle2
            · rename_i hD
              simp only [Option.some.injEq, Prod.mk.injEq] at h
              obtain ⟨ha2, hret⟩ := h
              subst ha2
              subst hret
              rcases main hw1 hw2 with ⟨hnn, hD2, -, -⟩ | ⟨-, -, -, hle1, hle2⟩
              · exact absurd hD2 hD
              · exact ⟨hle1, hle2⟩
      · -- no descent: only the own node may have been written
        simp only [Option.some.injEq, Prod.mk.injEq] at heq
        obtain ⟨hBe, hv2⟩ := heq
        subst hBe
        subst hv2
        split at h
        · rename_i hD
          simp only [Option.some.injEq, Prod.mk.injEq] at h
          obtain ⟨ha2, hret⟩ := h
          subst ha2
          subst hret
          have e1 : 2 * n = node := by
            by_contra hc
            exact hw1 (by simp [hc])
          have e2 : 2 * n + 1 = node := by
            by_contra hc
            exact hw2 (by simp [hc])
          omega
        · simp only [Option.some.injEq, Prod.mk.injEq] at h
          obtain ⟨ha2, hret⟩ := h
          subst ha2
          subst hret
          exact absurd rfl hw1

theorem RCV_writes (fuel : Nat) :
    ∀ S verts D arr left rght apex hgts node arr2 ret,
      RecursComputeVariance fuel S verts D arr left rght apex hgts node =
        some (arr2, ret) →
      ∀ j, arr2 j = arr j ∨ (1 / 1000 : ℚ) ≤ arr2 j := by
  induction fuel with
  | zero =>
    intro S verts D arr left rght apex hgts node arr2 ret h
    simp [RecursComputeVariance] at h
  | succ m ih =>
    intro S verts D arr left rght apex hgts node arr2 ret h j
    simp only [RecursComputeVariance] at h
    split at h
    · exact Option.noConfusion h
    · rename_i arrB v2 heq
      have hB : ∀ k, arrB k = arr k ∨ (1 / 1000 : ℚ) ≤ arrB k := by
        intro k
        split at heq
        · split at heq
          · exact Option.noConfusion heq
          · rename_i arrA c1 h1
            split at heq
            · exact Option.noConfusion heq
            · rename_i arrB2 c2 h2
              simp only [Option.some.injEq, Prod.mk.injEq] at heq
              obtain ⟨hBe, -⟩ := heq
              subst hBe
              rcases ih S verts D arrA rght apex _ _ (2 * node + 1) arrB2 c2 h2 k
                with he2 | hge2
              · rcases ih S verts D arr apex left _ _ (2 * node) arrA c1 h1 k
                  with he1 | hge1
                · exact Or.inl (he2.trans he1)
                · exact Or.inr (by rw [he2]; exact hge1)
              · exact Or.inr hge2
        · simp only [Option.some.injEq, Prod.mk.injEq] at heq
          obtain ⟨hBe, -⟩ := heq
          rw [← hBe]
          exact Or.inl rfl
      split at h
      · simp only [Option.some.injEq, Prod.mk.injEq] at h
        obtain ⟨ha2, -⟩ := h
        subst ha2
        by_cases hj : j = node
        · subst hj
          exact Or.inr (by simp)
        · rcases hB j with he | hge
          · exact Or.inl (by simp [hj, he])
          · exact Or.inr (by simpa [hj] using hge)
      · simp only [Option.some.injEq, Prod.mk.injEq] at h
        obtain ⟨ha2, -⟩ := h
        subst ha2
        exact hB j

/-- C4: after a terminating variance computation started at the root node
index 1, for every internal node n whose own index and child indices 2n and
2n+1 lie within the stored depth bound and were written by the recursion
(their stored value differs from the initial array), the value stored at n
is at least the value stored at each child. -/
theorem claim_C4_variance_monotone (fuel S D : Nat) (verts : Int → ℚ)
    (arr arr2 : Nat → ℚ) (ret : ℚ) (left rght apex : int2) (hgts : float3) (n : Nat)
    (h : RecursComputeVariance fuel S verts D arr left rght apex hgts 1 =
           some (arr2, ret))
    (hn : 1 ≤ n) (_hd : 2 * n + 1 < 2 ^ D)
    (hw1 : arr2 (2 * n) ≠ arr (2 * n)) (hw2 : arr2 (2 * n + 1) ≠ arr (2 * n + 1)) :
    arr2 (2 * n) ≤ arr2 n ∧ arr2 (2 * n + 1) ≤ arr2 n :=
  RCV_mono fuel S verts D arr left rght apex hgts 1 arr2 ret le_rfl h n hn hw1 hw2

/-- The variance run over a flat 4-grid tile at depth bound 3 used for the
C4 witness. -/
def c4run : Option ((Nat → ℚ) × ℚ) :=
  RecursComputeVariance 8 4 (fun _ => 5) 3 patchCtorVariance ⟨0, 4⟩ ⟨4, 0⟩ ⟨0, 0⟩
    ⟨5, 5, 5⟩ 1

/-- The array that run produces. -/
def c4arr : Nat → ℚ := (c4run.getD (patchCtorVariance, 0)).1

/-- The value that run returns. -/
def c4ret : ℚ := (c4run.getD (patchCtorVariance, 0)).2

theorem claim_C4_variance_monotone_witness :
    RecursComputeVariance 8 4 (fun _ => 5) 3 patchCtorVariance ⟨0, 4⟩ ⟨4, 0⟩ ⟨0, 0⟩
      ⟨5, 5, 5⟩ 1 = some (c4arr, c4ret) ∧
    1 ≤ 2 ∧ 2 * 2 + 1 < 2 ^ 3 ∧
    c4arr (2 * 2) ≠ patchCtorVariance (2 * 2) ∧
    c4arr (2 * 2 + 1) ≠ patchCtorVariance (2 * 2 + 1) ∧
    (c4arr (2 * 2) ≤ c4arr 2 ∧ c4arr (2 * 2 + 1) ≤ c4arr 2) := by
  have h4 : c4arr (2 * 2) = max (1 / 1000 : ℚ)
      (shoreVariance 4 (fun _ => 5) ⟨2, 2⟩ ⟨0, 0⟩ ⟨5, 5, 5⟩) := rfl
  have h5 : c4arr (2 * 2 + 1) = max (1 / 1000 : ℚ)
      (shoreVariance 4 (fun _ => 5) ⟨0, 4⟩ ⟨2, 2⟩ ⟨5, 5, 5⟩) := rfl
  have hw1 : c4arr (2 * 2) ≠ patchCtorVariance (2 * 2) := by
    rw [h4]
    norm_num [shoreVariance, GetHeight, patchCtorVariance]
  have hw2 : c4arr (2 * 2 + 1) ≠ patchCtorVariance (2 * 2 + 1) := by
    rw [h5]
    norm_num [shoreVariance, GetHeight, patchCtorVariance]
  exact ⟨rfl, by norm_num, by norm_num, hw1, hw2,
    claim_C4_variance_monotone 8 4 3 (fun _ => 5) patchCtorVariance c4arr c4ret
      ⟨0, 4⟩ ⟨4, 0⟩ ⟨0, 0⟩ ⟨5, 5, 5⟩ 2 rfl (by norm_num) (by norm_num) hw1 hw2⟩

/-- C2 counterexample: on a perfectly flat tile (every height 5, edge
length 2, depth bound 1) both variance arrays keep the value 0 at the
in-range entry 0, because node indices start at 1 and entry 0 is never
written — so not every entry is strictly greater than zero. -/
theorem claim_C2_counterexample :
    (ComputeVariance 1 2 1 (fun _ => 5) patchCtorVariance patchCtorVariance).map
        (fun r => r.1 0) = some 0 ∧
    (ComputeVariance 1 2 1 (fun _ => 5) patchCtorVariance patchCtorVariance).map
        (fun r => r.2.1 0) = some 0 ∧
    (0 : Nat) < 2 ^ 1 :=
  ⟨rfl, rfl, by norm_num⟩

/-- C2 amended: starting from the zero-filled arrays of the Patch
constructor, after ComputeVariance every entry of either variance array is
either still its initial 0 (entries the recursion never writes — entry 0 in
particular, and entries beyond the reach of the recursion) or at least the
clamp value 1/1000, hence strictly positive, even for a flat tile. -/
theorem claim_C2_variance_entries (fuel S D : Nat) (verts : Int → ℚ)
    (vL vR : Nat → ℚ) (dirty : Bool)
    (h : ComputeVariance fuel S D verts patchCtorVariance patchCtorVariance =
           some (vL, vR, dirty)) :
    ∀ j, (vL j = 0 ∨ (1 / 1000 : ℚ) ≤ vL j) ∧ (vR j = 0 ∨ (1 / 1000 : ℚ) ≤ vR j) := by
  unfold ComputeVariance at h
  split at h
  · exact Option.noConfusion h
  · rename_i vL2 r1 h1
    split at h
    · exact Option.noConfusion h
    · rename_i vR2 r2 h2
      simp only [Option.some.injEq, Prod.mk.injEq] at h
      obtain ⟨he1, he2, -⟩ := h
      subst he1
      subst he2
      intro j
      constructor
      · rcases RCV_writes fuel S verts D patchCtorVariance _ _ _ _ 1 _ _ h1 j
          with he | hge
        · left
          rw [he]
          rfl
        · right
          exact hge
      · rcases RCV_writes fuel S verts D patchCtorVariance _ _ _ _ 1 _ _ h2 j
          with he | hge
        · left
          rw [he]
          rfl
        · right
          exact hge

/-- The flat-tile variance run used for the C2 witness. -/
def c2run : Option ((Nat → ℚ) × (Nat → ℚ) × Bool) :=
  ComputeVariance 1 2 1 (fun _ => 5) patchCtorVariance patchCtorVariance

/-- The left variance array that run produces. -/
def c2L : Nat → ℚ := (c2run.getD (patchCtorVariance, patchCtorVariance, true)).1

/-- The right variance array that run produces. -/
def c2R : Nat → ℚ := (c2run.getD (patchCtorVariance, patchCtorVariance, true)).2.1

theorem claim_C2_variance_entries_witness :
    ComputeVariance 1 2 1 (fun _ => 5) patchCtorVariance patchCtorVariance =
      some (c2L, c2R, false) ∧
    ((c2L 1 = 0 ∨ (1 / 1000 : ℚ) ≤ c2L 1) ∧ (c2R 1 = 0 ∨ (1 / 1000 : ℚ) ≤ c2R 1)) :=
  ⟨rfl, claim_C2_variance_entries 1 2 1 (fun _ => 5) c2L c2R false rfl 1⟩

/-- C9: on a tile whose two root triangles are both leaves, GenerateIndices
emits exactly 6 indices — the apex, left and right corner of the left base
triangle followed by the apex, left and right corner of the right base
triangle. -/
theorem claim_C9_generate_indices (fuel S : Nat) (s : MeshState) (bl br : Nat)
    (h1 : IsLeaf s bl) (h2 : IsLeaf s br) :
    GenerateIndices (fuel + 1) S s bl br =
      some [0, (S : Int) * ((S : Int) + 1), (S : Int),
            (S : Int) + (S : Int) * ((S : Int) + 1), (S : Int),
            (S : Int) * ((S : Int) + 1)] ∧
    (GenerateIndices (fuel + 1) S s bl br).map List.length = some 6 := by
  have e : GenerateIndices (fuel + 1) S s bl br =
      some [0, (S : Int) * ((S : Int) + 1), (S : Int),
            (S : Int) + (S : Int) * ((S : Int) + 1), (S : Int),
            (S : Int) * ((S : Int) + 1)] := by
    simp [GenerateIndices, RecursGenIndices, h1, h2]
  refine ⟨e, ?_⟩
  rw [e]
  rfl

/-- An un-split two-root tile used for the C9 witness. -/
def w9state : MeshState := ⟨fun _ => zeroTriTreeNode, 0, 0⟩

theorem claim_C9_generate_indices_witness :
    IsLeaf w9state 0 ∧ IsLeaf w9state 1 ∧
    (GenerateIndices (0 + 1) 2 w9state 0 1 =
       some [0, (2 : Int) * ((2 : Int) + 1), (2 : Int),
             (2 : Int) + (2 : Int) * ((2 : Int) + 1), (2 : Int),
             (2 : Int) * ((2 : Int) + 1)] ∧
     (GenerateIndices (0 + 1) 2 w9state 0 1).map List.length = some 6) :=
  ⟨by decide, by decide,
   claim_C9_generate_indices 0 2 w9state 0 1 (by decide) (by decide)⟩

/-- C10: a GenerateBorderVertices call returns unchanged when the
tessellated flag is clear; every call that returns leaves the flag clear,
so an immediately following call changes nothing — in particular the
border vertex list stays as it is. -/
theorem claim_C10_border_idempotent (fuel fuel2 S : Nat) (p q : PatchState)
    (h : GenerateBorderVertices fuel S p = some q) :
    (p.isTesselated = false → q = p) ∧
    q.isTesselated = false ∧
    GenerateBorderVertices fuel2 S q = some q := by
  have key : q.isTesselated = false ∧ (p.isTesselated = false → q = p) := by
    unfold GenerateBorderVertices at h
    by_cases hp : p.isTesselated = false
    · rw [if_pos hp] at h
      simp only [Option.some.injEq] at h
      subst h
      exact ⟨hp, fun _ => rfl⟩
    · rw [if_neg hp] at h
      repeat' split at h
      all_goals first
        | exact Option.noConfusion h
        | · simp only [Option.some.injEq] at h
            subst h
            exact ⟨rfl, fun hc => absurd hc hp⟩
  refine ⟨key.2, key.1, ?_⟩
  unfold GenerateBorderVertices
  rw [if_pos key.1]

/-- A tessellated one-leaf patch used for the C10 witness. -/
def w10state : PatchState :=
  ⟨⟨fun _ => zeroTriTreeNode, 0, 0⟩, 0, 1, fun _ => 0, true, []⟩

/-- The patch the first GenerateBorderVertices call of the C10 witness
produces. -/
def w10result : PatchState := (GenerateBorderVertices 1 2 w10state).getD w10state

theorem claim_C10_border_idempotent_witness :
    GenerateBorderVertices 1 2 w10state = some w10result ∧
    ((w10state.isTesselated = false → w10result = w10state) ∧
     w10result.isTesselated = false ∧
     GenerateBorderVertices 1 2 w10result = some w10result) :=
  ⟨rfl, claim_C10_border_idempotent 1 1 2 w10state w10result rfl⟩
